import Mathlib

/-!
# Verification of `scripts/workspace_order.py`

A shallow embedding of the workspace-order listing emitter.  The script
iterates a fixed ordered list of relative paths; for each path `rel` it
checks whether `rel ++ "/package.json"` is a regular file, skips it silently
if not, otherwise parses the file as JSON, extracts the `name` field with
the path itself as default, and prints `name|rel` to standard output.

The JSON parsing layer (`json.loads`) is external library code, so the
filesystem is modelled at the granularity the script observes: each path
maps to a `FileEntry` that is either absent, an existing non-regular-file
entry (e.g. a directory), or a regular file whose content is given by its
parse outcome (`malformed`, i.e. `json.loads` raises, or a parsed Python
value).  Numeric atoms carry their textual `str()` rendering, and string
atoms are taken to need no escaping in `repr`, abstracting Python's
numeric/string formatting, which the script does not interpret.
-/

namespace WorkspaceOrder

/-- A Python value as produced by the JSON parsing layer: `None`, booleans,
numbers (carrying their `str()` rendering), strings, lists, and dicts. -/
inductive PyValue where
  | null : PyValue
  | bool (b : Bool) : PyValue
  | num (render : String) : PyValue
  | str (s : String) : PyValue
  | list (elems : List PyValue) : PyValue
  | dict (entries : List (String × PyValue)) : PyValue

/-- Outcome of handing a file's text to the parsing layer: either the
parser raises (`malformed`) or it returns a Python value. -/
inductive ParseResult where
  | malformed : ParseResult
  | parsed (v : PyValue) : ParseResult

/-- What the filesystem holds at a given path: nothing, an existing entry
that is not a regular file (e.g. a directory), or a regular file with the
given parse outcome for its content. -/
inductive FileEntry where
  | missing : FileEntry
  | dir : FileEntry
  | file (content : ParseResult) : FileEntry

/-- Whether an entry is a regular file whose content makes the parsing
layer raise. -/
def FileEntry.isMalformedFile : FileEntry → Bool
  | .file .malformed => true
  | _ => false

/-- Whether a parsed value is a Python dict (the only values on which the
script's `.get` call succeeds). -/
def PyValue.isDict : PyValue → Bool
  | .dict _ => true
  | _ => false

/-- A filesystem state: each path string maps to its entry. -/
def FS : Type := String → FileEntry

/-- `ORDERED_PATHS` from the script: the fixed ordered list of
workspace-relative package directories. -/
def ORDERED_PATHS : List String :=
  [ "shareds/common",
    "shareds/cache",
    "shareds/async",
    "shareds/reactive",
    "packages/validator",
    "packages/expression",
    "packages/pattern-matching",
    "packages/specification" ]

/-- `Path(rel) / "package.json"`: the manifest location for a path. -/
def manifestPath (rel : String) : String := rel ++ "/package.json"

/-- The two uncaught Python exceptions the script can die with: a
`json.JSONDecodeError` from `json.loads`, or an `AttributeError` from
calling `.get` on a parsed value that is not a dict. -/
inductive RunError where
  | jsonError : RunError
  | attrError : RunError
deriving DecidableEq

/-- Python's single-quote character, used by `repr` of strings. -/
def squote : String := String.singleton (Char.ofNat 39)

mutual

/-- Python `str()` of a value, as used by the f-string
`f"{name}|{rel}"`: `None`, `True`/`False`, the stored rendering for
numbers, the raw text for strings, and `repr`-style rendering for
containers. -/
def pyStr : PyValue → String
  | .null => "None"
  | .bool true => "True"
  | .bool false => "False"
  | .num r => r
  | .str s => s
  | .list xs => "[" ++ pyStrCommaList xs ++ "]"
  | .dict es => "\x7b" ++ pyStrCommaDict es ++ "\x7d"

/-- Python `repr()` of a value: like `str()` except strings are quoted. -/
def pyRepr : PyValue → String
  | .null => "None"
  | .bool true => "True"
  | .bool false => "False"
  | .num r => r
  | .str s => squote ++ s ++ squote
  | .list xs => "[" ++ pyStrCommaList xs ++ "]"
  | .dict es => "\x7b" ++ pyStrCommaDict es ++ "\x7d"

/-- Comma-separated `repr`s of list elements. -/
def pyStrCommaList : List PyValue → String
  | [] => ""
  | [x] => pyRepr x
  | x :: xs => pyRepr x ++ ", " ++ pyStrCommaList xs

/-- Comma-separated `key: value` pairs of a dict, keys and values in
`repr` form. -/
def pyStrCommaDict : List (String × PyValue) → String
  | [] => ""
  | [(k, v)] => squote ++ k ++ squote ++ ": " ++ pyRepr v
  | (k, v) :: es => squote ++ k ++ squote ++ ": " ++ pyRepr v ++ ", " ++ pyStrCommaDict es

end

/-- Python `dict.get(key)` without default: the first entry for `key`,
if any.  (`json.loads` yields a dict without duplicate keys.) -/
def dictGet (entries : List (String × PyValue)) (key : String) : Option PyValue :=
  entries.lookup key

/-- One iteration of the script's loop for path `rel`:
`ok none` means the path was skipped (`continue`), `ok (some line)` means
`line` was printed, `error e` means the iteration raised `e` uncaught. -/
def step (fs : FS) (rel : String) : Except RunError (Option String) :=
  match fs (manifestPath rel) with
  | .missing => .ok none
  | .dir => .ok none
  | .file .malformed => .error .jsonError
  | .file (.parsed v) =>
    match v with
    | .dict es =>
      let name : String :=
        match dictGet es "name" with
        | some w => pyStr w
        | none => rel
      .ok (some (name ++ "|" ++ rel))
    | _ => .error .attrError

/-- The loop of `main` over a path list: the lines printed (in order) and
the uncaught exception, if one stopped the loop. -/
def runList (fs : FS) : List String → List String × Option RunError
  | [] => ([], none)
  | rel :: rest =>
    match step fs rel with
    | .error e => ([], some e)
    | .ok none => runList fs rest
    | .ok (some line) => ((runList fs rest).1.cons line, (runList fs rest).2)

/-- `main()`: run the loop over `ORDERED_PATHS`. -/
def main (fs : FS) : List String × Option RunError :=
  runList fs ORDERED_PATHS

/-- The process exit status: `0` on a normal return from `main`, `1` when
an uncaught exception terminates the interpreter. -/
def exitStatus (fs : FS) : Nat :=
  match (main fs).2 with
  | none => 0
  | some _ => 1

/-- The line printed for `rel`, if the iteration prints one. -/
def emittedLine (fs : FS) (rel : String) : Option String :=
  match step fs rel with
  | .ok (some line) => some line
  | _ => none

/-- Whether the manifest for `rel` is a regular file (`Path.is_file`). -/
def manifestIsFile (fs : FS) (rel : String) : Bool :=
  match fs (manifestPath rel) with
  | .file _ => true
  | _ => false

/-- The number of paths in `ORDERED_PATHS` whose manifest file exists. -/
def countExisting (fs : FS) : Nat :=
  ORDERED_PATHS.countP (manifestIsFile fs)

/-- Whether an entry, if it is a regular file, parses as a dict. -/
def objectIfFile : FileEntry → Bool
  | .file (.parsed (.dict _)) => true
  | .file _ => false
  | _ => true

/-! ## State-threaded variant

To state the frame property (the run only reads the filesystem), the two
filesystem operations the script performs are modelled as explicit state
transformers, and the loop threads the state through them. -/

/-- `Path.is_file()`: queries the filesystem state and returns it. -/
def isFileOp (fs : FS) (p : String) : FS × Bool :=
  (fs, match fs p with | .file _ => true | _ => false)

/-- `read_text()` followed by `json.loads`: reads the file's parse outcome
and returns the filesystem state. -/
def readParseOp (fs : FS) (p : String) : FS × ParseResult :=
  (fs, match fs p with | .file c => c | _ => .malformed)

/-- One state-threaded loop iteration. -/
def stepSt (fs : FS) (rel : String) : FS × Except RunError (Option String) :=
  let r1 := isFileOp fs (manifestPath rel)
  if r1.2 = false then (r1.1, .ok none)
  else
    let r2 := readParseOp r1.1 (manifestPath rel)
    match r2.2 with
    | .malformed => (r2.1, .error .jsonError)
    | .parsed v =>
      match v with
      | .dict es =>
        let name : String :=
          match dictGet es "name" with
          | some w => pyStr w
          | none => rel
        (r2.1, .ok (some (name ++ "|" ++ rel)))
      | _ => (r2.1, .error .attrError)

/-- The state-threaded loop. -/
def runListSt (fs : FS) : List String → FS × (List String × Option RunError)
  | [] => (fs, ([], none))
  | rel :: rest =>
    let r := stepSt fs rel
    match r.2 with
    | .error e => (r.1, ([], some e))
    | .ok none => runListSt r.1 rest
    | .ok (some line) =>
      let rr := runListSt r.1 rest
      (rr.1, (rr.2.1.cons line, rr.2.2))

/-- State-threaded `main()`. -/
def mainSt (fs : FS) : FS × (List String × Option RunError) :=
  runListSt fs ORDERED_PATHS

/-! ## Concrete filesystem states used to instantiate the theorems -/

/-- Only `shareds/common` has a manifest; it names the package
`pkg-common`. -/
def fsNamed : FS := fun p =>
  if p = "shareds/common/package.json" then
    .file (.parsed (.dict [("name", .str "pkg-common")]))
  else .missing

/-- No manifest file exists anywhere. -/
def fsEmpty : FS := fun _ => .missing

/-- Only `shareds/common` has a manifest; it parses as an object without a
`name` key. -/
def fsNoName : FS := fun p =>
  if p = "shareds/common/package.json" then
    .file (.parsed (.dict [("version", .str "1.0.0")]))
  else .missing

/-- The `shareds/common` manifest is fine, the `shareds/cache` manifest
exists but does not parse. -/
def fsMalformed : FS := fun p =>
  if p = "shareds/common/package.json" then
    .file (.parsed (.dict [("name", .str "pkg-common")]))
  else if p = "shareds/cache/package.json" then
    .file .malformed
  else .missing

/-- Only `shareds/common` has a manifest; it parses as an empty JSON
array. -/
def fsArr : FS := fun p =>
  if p = "shareds/common/package.json" then
    .file (.parsed (.list []))
  else .missing

/-- The manifest path of `shareds/common` exists but is a directory. -/
def fsDir : FS := fun p =>
  if p = "shareds/common/package.json" then .dir else .missing

/-- Only `shareds/common` has a manifest; its `name` key holds JSON
`null`. -/
def fsNull : FS := fun p =>
  if p = "shareds/common/package.json" then
    .file (.parsed (.dict [("name", .null)]))
  else .missing

/-! ## Helper lemmas -/

/-- Running the loop on an appended list: the second half runs only when
the first half raised nothing. -/
theorem runList_append (fs : FS) (l₁ l₂ : List String) :
    runList fs (l₁ ++ l₂) =
      if (runList fs l₁).2 = none then
        ((runList fs l₁).1 ++ (runList fs l₂).1, (runList fs l₂).2)
      else runList fs l₁ := by
  induction l₁ with
  | nil => simp [runList]
  | cons a t ih =>
    cases hstep : step fs a with
    | error e => simp [runList, hstep]
    | ok o =>
      cases o with
      | none => simpa [runList, hstep] using ih
      | some line =>
        simp only [List.cons_append, runList, hstep, List.append_eq]
        rw [ih]
        by_cases h2 : (runList fs t).2 = none <;> simp [h2]

/-- When the loop finishes without raising, its output is the in-order
`filterMap` of the per-path emitted lines. -/
theorem runList_eq_filterMap (fs : FS) (l : List String)
    (h : (runList fs l).2 = none) :
    (runList fs l).1 = l.filterMap (emittedLine fs) := by
  induction l with
  | nil => simp [runList]
  | cons a t ih =>
    rw [runList] at h ⊢
    cases hstep : step fs a with
    | error e => rw [hstep] at h; simp at h
    | ok o =>
      cases o with
      | none =>
        rw [hstep] at h
        simp only [List.filterMap_cons, emittedLine, hstep]
        exact ih h
      | some line =>
        rw [hstep] at h
        simp only [List.filterMap_cons, emittedLine, hstep, List.cons.injEq]
        exact ⟨trivial, ih h⟩

/-- A skipped iteration emits no line. -/
theorem emittedLine_of_skip (fs : FS) (p : String)
    (h : step fs p = .ok none) : emittedLine fs p = none := by
  simp [emittedLine, h]

/-- When every existing manifest on the list parses as an object, the loop
finishes without raising and prints one line per existing manifest. -/
theorem runList_objects (fs : FS) (l : List String)
    (h : ∀ p ∈ l, objectIfFile (fs (manifestPath p)) = true) :
    (runList fs l).2 = none ∧
      (runList fs l).1.length = l.countP (manifestIsFile fs) := by
  induction l with
  | nil => simp [runList]
  | cons a t ih =>
    have ha := h a (List.mem_cons_self a t)
    have ht := ih fun p hp => h p (List.mem_cons_of_mem a hp)
    rw [runList]
    cases hfe : fs (manifestPath a) with
    | missing =>
      simp only [step, hfe]
      simpa [List.countP_cons, manifestIsFile, hfe] using ht
    | dir =>
      simp only [step, hfe]
      simpa [List.countP_cons, manifestIsFile, hfe] using ht
    | file c =>
      cases c with
      | malformed => rw [hfe] at ha; simp [objectIfFile] at ha
      | parsed v =>
        cases v with
        | dict es =>
          simp only [step, hfe]
          simp only [List.countP_cons, manifestIsFile, hfe, List.length_cons,
            ht.2, if_pos rfl]
          exact ⟨ht.1, rfl⟩
        | null => rw [hfe] at ha; simp [objectIfFile] at ha
        | bool b => rw [hfe] at ha; simp [objectIfFile] at ha
        | num r => rw [hfe] at ha; simp [objectIfFile] at ha
        | str s => rw [hfe] at ha; simp [objectIfFile] at ha
        | list xs => rw [hfe] at ha; simp [objectIfFile] at ha

/-- Every printed line ends in `"|" ++ rel` for its path `rel`. -/
theorem step_line_shape (fs : FS) (p c : String)
    (h : step fs p = .ok (some c)) : ∃ n, c = n ++ "|" ++ p := by
  unfold step at h
  cases hfe : fs (manifestPath p) <;> rw [hfe] at h
  case missing => exact absurd h (by simp)
  case dir => exact absurd h (by simp)
  case file content =>
    cases content with
    | malformed => exact absurd h (by simp)
    | parsed v =>
      cases v with
      | dict es =>
        cases hg : dictGet es "name" with
        | none =>
          refine ⟨p, ?_⟩
          simp only [hg, Except.ok.injEq, Option.some.injEq] at h
          exact h.symm
        | some w =>
          refine ⟨pyStr w, ?_⟩
          simp only [hg, Except.ok.injEq, Option.some.injEq] at h
          exact h.symm
      | null => exact absurd h (by simp)
      | bool b => exact absurd h (by simp)
      | num r => exact absurd h (by simp)
      | str s => exact absurd h (by simp)
      | list xs => exact absurd h (by simp)

/-- An iteration emits a line exactly when `step` prints it. -/
theorem emittedLine_eq_some (fs : FS) (p c : String) :
    emittedLine fs p = some c ↔ step fs p = .ok (some c) := by
  unfold emittedLine
  cases hs : step fs p with
  | error e => simp
  | ok o => cases o <;> simp

/-- Splitting two equal lists at the last occurrence of a separator absent
from both tails. -/
theorem splitAtSep {α : Type} [DecidableEq α] (sep : α) :
    ∀ (xs ys us vs : List α), sep ∉ xs → sep ∉ ys →
      xs ++ sep :: us = ys ++ sep :: vs → xs = ys ∧ us = vs := by
  intro xs
  induction xs with
  | nil =>
    intro ys us vs _ hy h
    cases ys with
    | nil => simpa using h
    | cons b t =>
      simp only [List.nil_append, List.cons_append, List.cons.injEq] at h
      rcases h with ⟨rfl, -⟩
      exact absurd (List.mem_cons_self _ _) hy
  | cons a xs ih =>
    intro ys us vs hx hy h
    cases ys with
    | nil =>
      simp only [List.cons_append, List.nil_append, List.cons.injEq] at h
      rcases h with ⟨rfl, -⟩
      exact absurd (List.mem_cons_self _ _) hx
    | cons b t =>
      simp only [List.cons_append, List.cons.injEq] at h
      obtain ⟨rfl, h2⟩ := h
      have hrest := ih t us vs (fun hm => hx (List.mem_cons_of_mem _ hm))
        (fun hm => hy (List.mem_cons_of_mem _ hm)) h2
      exact ⟨by rw [hrest.1], hrest.2⟩

/-- Equal printed lines whose paths are free of the separator have equal
paths. -/
theorem line_path_eq (a b p q : String)
    (hp : ('|' : Char) ∉ p.data) (hq : ('|' : Char) ∉ q.data)
    (h : a ++ "|" ++ p = b ++ "|" ++ q) : p = q := by
  have hbar : ("|" : String).data = ['|'] := rfl
  have hd : a.data ++ '|' :: p.data = b.data ++ '|' :: q.data := by
    have hc := congrArg String.data h
    simpa [String.data_append, hbar] using hc
  have hrev : p.data.reverse ++ '|' :: a.data.reverse
      = q.data.reverse ++ '|' :: b.data.reverse := by
    have hc := congrArg List.reverse hd
    simpa [List.reverse_append] using hc
  have hsplit := splitAtSep ('|' : Char) p.data.reverse q.data.reverse
    a.data.reverse b.data.reverse (by simpa using hp) (by simpa using hq) hrev
  have hdata : p.data = q.data := by
    have hc := congrArg List.reverse hsplit.1
    simpa using hc
  exact String.ext hdata

/-- A `filterMap` over a duplicate-free list whose function is injective
on its members contains each produced element exactly once. -/
theorem count_filterMap_one {α β : Type} [DecidableEq α] [DecidableEq β]
    (f : α → Option β) :
    ∀ (l : List α) (p : α) (c : β), l.Nodup → p ∈ l → f p = some c →
      (∀ x ∈ l, ∀ y ∈ l, ∀ d : β, f x = some d → f y = some d → x = y) →
      (l.filterMap f).count c = 1 := by
  intro l
  induction l with
  | nil => intro p c _ hp _ _; exact absurd hp (List.not_mem_nil p)
  | cons a t ih =>
    intro p c hnd hp hfp hinj
    rcases List.mem_cons.mp hp with rfl | hpt
    · rw [List.filterMap_cons, hfp, List.count_cons_self]
      have hzero : (t.filterMap f).count c = 0 := by
        rw [List.count_eq_zero]
        intro hc
        rcases List.mem_filterMap.mp hc with ⟨y, hyt, hfy⟩
        have hpy : p = y := hinj p (List.mem_cons_self p t) y
          (List.mem_cons_of_mem _ hyt) c hfp hfy
        exact (List.nodup_cons.mp hnd).1 (hpy ▸ hyt)
      rw [hzero]
    · have hanott := (List.nodup_cons.mp hnd).1
      have hinj' : ∀ x ∈ t, ∀ y ∈ t, ∀ d : β, f x = some d → f y = some d → x = y :=
        fun x hx y hy d h1 h2 =>
          hinj x (List.mem_cons_of_mem _ hx) y (List.mem_cons_of_mem _ hy) d h1 h2
      have hrec := ih p c (List.nodup_cons.mp hnd).2 hpt hfp hinj'
      rw [List.filterMap_cons]
      cases hfa : f a with
      | none => exact hrec
      | some d =>
        have hdc : d ≠ c := by
          intro hdc
          subst hdc
          have hap : a = p := hinj a (List.mem_cons_self a t) p hp d hfa hfp
          exact hanott (hap ▸ hpt)
        rw [List.count_cons_of_ne (Ne.symm hdc)]
        exact hrec

/-- The fixed path list has no duplicates. -/
theorem orderedPaths_nodup : ORDERED_PATHS.Nodup := by decide

/-- No path in the fixed list contains the output separator `|`. -/
theorem orderedPaths_no_bar : ∀ r ∈ ORDERED_PATHS, ('|' : Char) ∉ r.data := by
  decide

/-- On the fixed path list, the emitted line determines the path. -/
theorem emittedLine_inj (fs : FS) :
    ∀ x ∈ ORDERED_PATHS, ∀ y ∈ ORDERED_PATHS, ∀ d : String,
      emittedLine fs x = some d → emittedLine fs y = some d → x = y := by
  intro x hx y hy d h1 h2
  obtain ⟨n1, rfl⟩ := step_line_shape fs x d ((emittedLine_eq_some fs x d).mp h1)
  obtain ⟨n2, he⟩ := step_line_shape fs y _ ((emittedLine_eq_some fs y _).mp h2)
  exact line_path_eq n1 n2 x y (orderedPaths_no_bar x hx)
    (orderedPaths_no_bar y hy) he

/-! ## Claim theorems -/

/-- Claim C1: when a run of `main` finishes without raising, the printed
lines are exactly the per-path emitted lines in the order of
`ORDERED_PATHS`, and every path whose manifest exists and parses as an
object with a `name` field contributes exactly one output line
`<name>|<path>`. -/
theorem claim_C1 (fs : FS) (lines : List String)
    (h : main fs = (lines, none)) :
    lines = ORDERED_PATHS.filterMap (emittedLine fs) ∧
    ∀ p ∈ ORDERED_PATHS, ∀ (es : List (String × PyValue)) (w : PyValue),
      fs (manifestPath p) = .file (.parsed (.dict es)) →
      dictGet es "name" = some w →
      emittedLine fs p = some (pyStr w ++ "|" ++ p) ∧
      lines.count (pyStr w ++ "|" ++ p) = 1 := by
  have hm : runList fs ORDERED_PATHS = (lines, none) := h
  have h2 : (runList fs ORDERED_PATHS).2 = none := by rw [hm]
  have hl : lines = ORDERED_PATHS.filterMap (emittedLine fs) := by
    rw [← runList_eq_filterMap fs ORDERED_PATHS h2, hm]
  refine ⟨hl, ?_⟩
  intro p hp es w hfe hg
  have hstep : step fs p = .ok (some (pyStr w ++ "|" ++ p)) := by
    unfold step
    rw [hfe]
    simp [hg]
  have hem : emittedLine fs p = some (pyStr w ++ "|" ++ p) :=
    (emittedLine_eq_some fs p _).mpr hstep
  refine ⟨hem, ?_⟩
  rw [hl]
  exact count_filterMap_one (emittedLine fs) ORDERED_PATHS p _
    orderedPaths_nodup hp hem (emittedLine_inj fs)

/-- Witness for C1 on `fsNamed`, whose only manifest names `pkg-common`. -/
theorem claim_C1_witness :
    main fsNamed = (["pkg-common|shareds/common"], none) ∧
    (["pkg-common|shareds/common"] = ORDERED_PATHS.filterMap (emittedLine fsNamed) ∧
     ∀ p ∈ ORDERED_PATHS, ∀ (es : List (String × PyValue)) (w : PyValue),
       fsNamed (manifestPath p) = .file (.parsed (.dict es)) →
       dictGet es "name" = some w →
       emittedLine fsNamed p = some (pyStr w ++ "|" ++ p) ∧
       (["pkg-common|shareds/common"] : List String).count (pyStr w ++ "|" ++ p) = 1) :=
  ⟨by decide, claim_C1 fsNamed ["pkg-common|shareds/common"] (by decide)⟩

/-- Claim C2: a path whose manifest file is missing is skipped silently --
the iteration prints nothing and raises nothing, and the run continues as
if the path were not on the list. -/
theorem claim_C2 (fs : FS) (p : String) (pre post : List String)
    (h : fs (manifestPath p) = .missing) :
    step fs p = .ok none ∧
    runList fs (pre ++ p :: post) = runList fs (pre ++ post) := by
  have hstep : step fs p = .ok none := by unfold step; rw [h]
  refine ⟨hstep, ?_⟩
  have hco : runList fs (p :: post) = runList fs post := by
    simp only [runList, hstep]
  rw [runList_append, runList_append, hco]

/-- Witness for C2 on the empty filesystem. -/
theorem claim_C2_witness :
    fsEmpty (manifestPath "shareds/cache") = .missing ∧
    (step fsEmpty "shareds/cache" = .ok none ∧
     runList fsEmpty (["shareds/common"] ++ "shareds/cache" :: ["shareds/async"]) =
       runList fsEmpty (["shareds/common"] ++ ["shareds/async"])) :=
  ⟨rfl, claim_C2 fsEmpty "shareds/cache" ["shareds/common"] ["shareds/async"] rfl⟩

/-- Claim C3: a manifest that parses as an object without a `name` key
makes the iteration fall back to the path itself, printing
`<path>|<path>`. -/
theorem claim_C3 (fs : FS) (p : String) (es : List (String × PyValue))
    (h1 : fs (manifestPath p) = .file (.parsed (.dict es)))
    (h2 : dictGet es "name" = none) :
    step fs p = .ok (some (p ++ "|" ++ p)) := by
  unfold step
  rw [h1]
  simp [h2]

/-- Witness for C3 on `fsNoName`, whose only manifest lacks `name`. -/
theorem claim_C3_witness :
    fsNoName (manifestPath "shareds/common") =
      .file (.parsed (.dict [("version", .str "1.0.0")])) ∧
    dictGet [("version", PyValue.str "1.0.0")] "name" = none ∧
    step fsNoName "shareds/common" = .ok (some "shareds/common|shareds/common") :=
  ⟨rfl, rfl, claim_C3 fsNoName "shareds/common" [("version", .str "1.0.0")] rfl rfl⟩

/-- Claim C4 counterexample: in `fsArr` every existing manifest parses
successfully (none is malformed), yet the run prints no line while one
manifest file exists, so the line count differs from the existing-manifest
count. -/
theorem claim_C4_counterexample :
    (∀ p ∈ ORDERED_PATHS, (fsArr (manifestPath p)).isMalformedFile = false) ∧
    (main fsArr).1.length ≠ countExisting fsArr := by
  constructor <;> decide

/-- Claim C4 (amended): when every existing manifest on the list parses as
an object, the run raises nothing and the number of printed lines equals
the number of list entries whose manifest file exists. -/
theorem claim_C4 (fs : FS)
    (h : ∀ p ∈ ORDERED_PATHS, objectIfFile (fs (manifestPath p)) = true) :
    (main fs).1.length = countExisting fs :=
  (runList_objects fs ORDERED_PATHS h).2

/-- Witness for the amended C4 on `fsNamed`. -/
theorem claim_C4_witness :
    (∀ p ∈ ORDERED_PATHS, objectIfFile (fsNamed (manifestPath p)) = true) ∧
    (main fsNamed).1.length = countExisting fsNamed :=
  ⟨by decide, claim_C4 fsNamed (by decide)⟩

/-- Claim C5: a manifest that exists but does not parse makes the
iteration raise the parsing layer's error, which propagates uncaught: the
run stops there, keeping only the lines printed before it, with no
recovery. -/
theorem claim_C5 (fs : FS) (p : String) (pre post : List String)
    (h : fs (manifestPath p) = .file .malformed)
    (hpre : (runList fs pre).2 = none) :
    step fs p = .error .jsonError ∧
    runList fs (pre ++ p :: post) = ((runList fs pre).1, some .jsonError) := by
  have hstep : step fs p = .error .jsonError := by unfold step; rw [h]
  refine ⟨hstep, ?_⟩
  rw [runList_append]
  simp [hpre, runList, hstep]

/-- Witness for C5 on `fsMalformed`, whose `shareds/cache` manifest does
not parse. -/
theorem claim_C5_witness :
    fsMalformed (manifestPath "shareds/cache") = .file .malformed ∧
    (runList fsMalformed ["shareds/common"]).2 = none ∧
    (step fsMalformed "shareds/cache" = .error .jsonError ∧
     runList fsMalformed (["shareds/common"] ++ "shareds/cache" :: []) =
       ((runList fsMalformed ["shareds/common"]).1, some .jsonError)) :=
  ⟨rfl, rfl, claim_C5 fsMalformed "shareds/cache" ["shareds/common"] [] rfl rfl⟩

/-- Claim C6 counterexample: in `fsArr` no existing manifest file is
malformed, yet the run dies on an uncaught `AttributeError`, so the
process exit status is not success. -/
theorem claim_C6_counterexample :
    (∀ p ∈ ORDERED_PATHS, (fsArr (manifestPath p)).isMalformedFile = false) ∧
    exitStatus fsArr ≠ 0 := by
  constructor <;> decide

/-- Claim C6 (amended): when every existing manifest parses as an object
(in particular none is malformed), the program terminates normally with a
success exit status; a non-success status arises only from an uncaught
exception, there being no explicit non-zero exit path. -/
theorem claim_C6 (fs : FS)
    (h : ∀ p ∈ ORDERED_PATHS, objectIfFile (fs (manifestPath p)) = true) :
    (main fs).2 = none ∧ exitStatus fs = 0 := by
  have hok := (runList_objects fs ORDERED_PATHS h).1
  exact ⟨hok, by simp only [exitStatus, main, hok]⟩

/-- Witness for the amended C6 on the empty filesystem. -/
theorem claim_C6_witness :
    (∀ p ∈ ORDERED_PATHS, objectIfFile (fsEmpty (manifestPath p)) = true) ∧
    ((main fsEmpty).2 = none ∧ exitStatus fsEmpty = 0) :=
  ⟨by decide, claim_C6 fsEmpty (by decide)⟩

/-- Every loop iteration only reads the filesystem state. -/
theorem stepSt_eq (fs : FS) (rel : String) :
    stepSt fs rel = (fs, step fs rel) := by
  unfold stepSt isFileOp readParseOp step
  cases hfe : fs (manifestPath rel) with
  | missing => simp [hfe]
  | dir => simp [hfe]
  | file c =>
    cases c with
    | malformed => simp [hfe]
    | parsed v => cases v <;> simp [hfe]

/-- The state-threaded loop returns the filesystem unchanged with the
pure loop's result. -/
theorem runListSt_eq (fs : FS) (l : List String) :
    runListSt fs l = (fs, runList fs l) := by
  induction l with
  | nil => rfl
  | cons a t ih =>
    simp only [runListSt, runList, stepSt_eq]
    cases hstep : step fs a with
    | error e => simp
    | ok o => cases o <;> simp [ih]

/-- Claim C7: the run's only side effect is its output -- threading the
filesystem state through every operation the script performs returns the
initial state unchanged, with the same printed lines and the same uncaught
exception as the pure run. -/
theorem claim_C7 (fs : FS) : (mainSt fs).1 = fs ∧ (mainSt fs).2 = main fs := by
  have hrl := runListSt_eq fs ORDERED_PATHS
  exact ⟨by simp [mainSt, hrl], by simp [mainSt, main, hrl]⟩

/-- Claim C8: when the manifest parses as an object containing the key
`name`, the printed name is the `str()` rendering of the stored value
whatever it is -- in particular JSON `null` prints as `None` rather than
being replaced -- and the path fallback is used only when the key is
absent. -/
theorem claim_C8 (fs : FS) (p : String) (es : List (String × PyValue))
    (w : PyValue)
    (h1 : fs (manifestPath p) = .file (.parsed (.dict es)))
    (h2 : dictGet es "name" = some w) :
    step fs p = .ok (some (pyStr w ++ "|" ++ p)) := by
  unfold step
  rw [h1]
  simp [h2]

/-- Witness for C8 on `fsNull`, whose only manifest maps `name` to JSON
`null`: the printed line is `None|shareds/common`. -/
theorem claim_C8_witness :
    fsNull (manifestPath "shareds/common") =
      .file (.parsed (.dict [("name", .null)])) ∧
    dictGet [("name", PyValue.null)] "name" = some PyValue.null ∧
    step fsNull "shareds/common" = .ok (some "None|shareds/common") :=
  ⟨rfl, rfl, claim_C8 fsNull "shareds/common" [("name", .null)] PyValue.null rfl rfl⟩

/-- Claim C9: a manifest path that exists but is not a regular file is
skipped exactly like a missing one -- the iteration prints nothing and
raises nothing, and the run continues as if the path were not on the
list. -/
theorem claim_C9 (fs : FS) (p : String) (pre post : List String)
    (h : fs (manifestPath p) = .dir) :
    step fs p = .ok none ∧
    runList fs (pre ++ p :: post) = runList fs (pre ++ post) := by
  have hstep : step fs p = .ok none := by unfold step; rw [h]
  refine ⟨hstep, ?_⟩
  have hco : runList fs (p :: post) = runList fs post := by
    simp only [runList, hstep]
  rw [runList_append, runList_append, hco]

/-- Witness for C9 on `fsDir`, whose `shareds/common` manifest path is a
directory. -/
theorem claim_C9_witness :
    fsDir (manifestPath "shareds/common") = .dir ∧
    (step fsDir "shareds/common" = .ok none ∧
     runList fsDir ([] ++ "shareds/common" :: ["shareds/cache"]) =
       runList fsDir ([] ++ ["shareds/cache"])) :=
  ⟨rfl, claim_C9 fsDir "shareds/common" [] ["shareds/cache"] rfl⟩

/-- Claim C10: a manifest that parses as a non-object makes the iteration
raise `AttributeError` at the `.get` call -- not a parsing-layer error --
and the run stops there with no line printed for that path. -/
theorem claim_C10 (fs : FS) (p : String) (v : PyValue) (pre post : List String)
    (h : fs (manifestPath p) = .file (.parsed v))
    (hv : v.isDict = false)
    (hpre : (runList fs pre).2 = none) :
    step fs p = .error .attrError ∧
    runList fs (pre ++ p :: post) = ((runList fs pre).1, some .attrError) := by
  have hstep : step fs p = .error .attrError := by
    unfold step
    rw [h]
    cases v with
    | dict es => exact absurd hv (by simp [PyValue.isDict])
    | null => rfl
    | bool b => rfl
    | num r => rfl
    | str s => rfl
    | list xs => rfl
  refine ⟨hstep, ?_⟩
  rw [runList_append]
  simp [hpre, runList, hstep]

/-- Witness for C10 on `fsArr`, whose only manifest parses as an empty
JSON array. -/
theorem claim_C10_witness :
    fsArr (manifestPath "shareds/common") = .file (.parsed (.list [])) ∧
    (PyValue.list []).isDict = false ∧
    (runList fsArr ([] : List String)).2 = none ∧
    (step fsArr "shareds/common" = .error .attrError ∧
     runList fsArr ([] ++ "shareds/common" :: ["shareds/cache"]) =
       ((runList fsArr ([] : List String)).1, some .attrError)) :=
  ⟨rfl, rfl, rfl,
    claim_C10 fsArr "shareds/common" (.list []) [] ["shareds/cache"] rfl rfl rfl⟩

end WorkspaceOrder
